import Mathlib

/-!
# Event / spot reservation API (`main.go`)

A shallow embedding of the four HTTP handlers of `main.go` and of the in-memory
dataset they work on, followed by the properties of the reservation state machine
and of the read-side lookups.

* The process-wide variable `data` becomes an explicit `Data` argument; every handler
  returns the response it writes together with the dataset it leaves behind.
* Go slices are lists, Go `int` values are integers, Go strings are strings.
* The library calls the handlers make (`strconv.Atoi`, `fmt.Sprint`, the `encoding/json`
  decoder and encoder, `http.Error`, `http.NotFound`) are modelled by their documented
  behaviour.  A request body is given as the first JSON value the decoder reads from it, or
  as `none` when the body does not begin with a well-formed JSON value; `Decode` reads one
  value and never examines the bytes after it.
* For the concurrency property the reservation handler is also cut at its two accesses to
  the shared dataset, the read phase (lines 119-158) and the write phase (lines 160-176),
  and calls are interleaved phase by phase.
-/

namespace FcChallenge

/-! ## Data model (`main.go`, lines 14-38) -/

/-- Go `type Event struct`. -/
structure Event where
  ID : Int
  Name : String
  Organization : String
  Date : String
  Price : Int
  Rating : String
  ImageURL : String
  CreatedAt : String
  Location : String
deriving DecidableEq

/-- Go `type Spot struct`. -/
structure Spot where
  ID : Int
  Name : String
  Status : String
  EventID : Int
deriving DecidableEq

/-- Go `type Data struct`; the global `var data Data` is passed explicitly.  A Go slice is
either nil or a sequence: `EventsNil` records that `Events` is the nil slice (the key
`events` absent from `data.json`), which matters only to the encoder when the slice is
empty. -/
structure Data where
  Events : List Event
  Spots : List Spot
  EventsNil : Bool := false
deriving DecidableEq

/-! ## JSON values and HTTP responses -/

/-- JSON values; a number is kept as its literal text. -/
inductive JSON where
  | null
  | bool (b : Bool)
  | num (lit : String)
  | str (s : String)
  | arr (items : List JSON)
  | obj (fields : List (String × JSON))

/-- What a handler writes as response body: plain text or an encoded JSON value. -/
inductive Body where
  | text (s : String)
  | json (v : JSON)

/-- The response a handler produces: status code, `Content-Type` header and body. -/
structure Response where
  status : Nat
  contentType : String
  body : Body

/-- Go `http.Error(w, msg, code)`: plain-text body `msg` followed by a newline. -/
def httpError (msg : String) (code : Nat) : Response :=
  ⟨code, "text/plain; charset=utf-8", Body.text (msg ++ "\n")⟩

/-- Go `http.NotFound(w, r)`. -/
def httpNotFound : Response :=
  httpError "404 page not found" 404

/-- The success path shared by the handlers: `Content-Type: application/json`, the encoded
value written with the default status 200. -/
def writeJSON (v : JSON) : Response :=
  ⟨200, "application/json", Body.json v⟩

/-! ## Library functions -/

/-- Go `fmt.Sprint` on an `int`: the decimal rendering, with a leading `-` when negative. -/
def fmtSprint : Int → String
  | Int.ofNat m => Nat.repr m
  | Int.negSucc m => "-" ++ Nat.repr (m + 1)

/-- Value of a decimal digit character. -/
def digitVal (c : Char) : Nat :=
  c.toNat - 48

/-- Value of a string of decimal digits, most significant digit first. -/
def decimalVal (ds : List Char) : Nat :=
  ds.foldl (fun acc c => acc * 10 + digitVal c) 0

/-- Go `strconv.Atoi` for a 64-bit `int`: an optional sign, then one or more decimal
digits, the value within `[-2^63, 2^63 - 1]`; `none` is the error result. -/
def strconvAtoi (s : String) : Option Int :=
  let signed : Bool × List Char :=
    match s.data with
    | '-' :: rest => (true, rest)
    | '+' :: rest => (false, rest)
    | cs => (false, cs)
  let neg := signed.1
  let ds := signed.2
  if ds.isEmpty then none
  else if !ds.all Char.isDigit then none
  else
    let un := decimalVal ds
    if !neg && un ≥ 2 ^ 63 then none
    else if neg && un > 2 ^ 63 then none
    else some (if neg then -(un : Int) else (un : Int))

/-- Case folding used by `encoding/json` when matching an object key against a field
name; for the letters of `spot` the only non-ASCII partner is the long s (U+017F). -/
def foldChar (c : Char) : Char :=
  if c = 'ſ' then 's' else c.toLower

/-- Whether an object key selects the struct field tagged `json:"spot"`: an exact
match, or a match up to case folding. -/
def keyIsSpot (k : String) : Bool :=
  k == "spot" || k.data.map foldChar == "spot".data

/-- Decoding the members of a JSON object into `struct { Spot string }`, in order.
`cur` is the field so far and `bad` records that a type error was saved.  A string
value is stored, `null` leaves the field as it is, any other value is a type error;
keys that do not select the field are skipped. -/
def decodeFields : List (String × JSON) → String → Bool → String × Bool
  | [], cur, bad => (cur, bad)
  | (k, v) :: rest, cur, bad =>
    if keyIsSpot k then
      match v with
      | JSON.str s => decodeFields rest s bad
      | JSON.null => decodeFields rest cur bad
      | _ => decodeFields rest cur true
    else decodeFields rest cur bad

/-- The nesting bound of the `encoding/json` scanner: `withinDepth n v` holds when the
arrays and objects of `v` are nested at most `n` deep. -/
def withinDepth : Nat → JSON → Bool
  | n + 1, JSON.arr items => items.all (withinDepth n)
  | n + 1, JSON.obj fields => fields.all (fun kv => withinDepth n kv.2)
  | 0, JSON.arr _ => false
  | 0, JSON.obj _ => false
  | _, _ => true

/-- The constant `maxNestingDepth` of `encoding/json`. -/
def maxNestingDepth : Nat :=
  10000

/-- Storing a JSON value that passed the scanner into `struct { Spot string }`: an object
is decoded member by member, `null` has no effect, any other value is a type error. -/
def storeRequestBody : JSON → Option String
  | JSON.obj fields =>
    match decodeFields fields "" false with
    | (spot, false) => some spot
    | (_, true) => none
  | JSON.null => some ""
  | _ => none

/-- Go `json.NewDecoder(r.Body).Decode(&requestBody)` for
`var requestBody struct { Spot string }` (zero value: `Spot = ""`).  The argument is the
first JSON value of the body, `none` when the body does not begin with a well-formed JSON
value; the bytes after the first value are not read.  The scanner refuses a value nested
deeper than `maxNestingDepth`.  The result is `requestBody.Spot`, or `none` when
`Decode` returns an error. -/
def decodeRequestBody : Option JSON → Option String
  | none => none
  | some v => if withinDepth maxNestingDepth v then storeRequestBody v else none

/-- Encoding of an `Event` by `json.Marshal`, following the struct tags. -/
def marshalEvent (e : Event) : JSON :=
  JSON.obj
    [("id", JSON.num (fmtSprint e.ID)),
     ("name", JSON.str e.Name),
     ("organization", JSON.str e.Organization),
     ("date", JSON.str e.Date),
     ("price", JSON.num (fmtSprint e.Price)),
     ("rating", JSON.str e.Rating),
     ("image_url", JSON.str e.ImageURL),
     ("created_at", JSON.str e.CreatedAt),
     ("location", JSON.str e.Location)]

/-- Encoding of a `Spot` by `json.Marshal`, following the struct tags. -/
def marshalSpot (s : Spot) : JSON :=
  JSON.obj
    [("id", JSON.num (fmtSprint s.ID)),
     ("name", JSON.str s.Name),
     ("status", JSON.str s.Status),
     ("event_id", JSON.num (fmtSprint s.EventID))]

/-- Go `json.Marshal` applied to the values the handlers encode.  These are structs of
integers and strings, slices of them and a `map[string]string`, for which the encoder
returns no error; the result type keeps the `err` the handlers test. -/
def jsonMarshal (v : JSON) : Except String JSON :=
  Except.ok v

/-! ## Handlers -/

/-- Encoding of `data.Events` by `json.Marshal`: a nil slice is written as `null`, any
other slice as the array of its encoded events. -/
def marshalEvents (data : Data) : JSON :=
  if data.EventsNil && data.Events.isEmpty then JSON.null
  else JSON.arr (data.Events.map marshalEvent)

/-- Handler `getEventsHandler` (lines 66-75). -/
def getEventsHandler (data : Data) : Response × Data :=
  match jsonMarshal (marshalEvents data) with
  | Except.error _ => (httpError "Error encoding events to JSON" 500, data)
  | Except.ok jsonResponse => (writeJSON jsonResponse, data)

/-- The loop of `getEventDetailsHandler` (lines 81-93): the response written for the
first event whose rendered ID equals `eventID`, `none` when the loop runs to its end. -/
def eventDetailsLoop : List Event → String → Option Response
  | [], _ => none
  | event :: rest, eventID =>
    if fmtSprint event.ID = eventID then
      match jsonMarshal (marshalEvent event) with
      | Except.error _ => some (httpError "Error encoding event details to JSON" 500)
      | Except.ok jsonResponse => some (writeJSON jsonResponse)
    else eventDetailsLoop rest eventID

/-- Handler `getEventDetailsHandler` (lines 77-96); `eventID` is `vars["eventId"]`. -/
def getEventDetailsHandler (data : Data) (eventID : String) : Response × Data :=
  match eventDetailsLoop data.Events eventID with
  | some resp => (resp, data)
  | none => (httpNotFound, data)

/-- The loop of `getEventSpotsHandler` (lines 102-107): `spots` grows by `append`. -/
def eventSpotsLoop : List Spot → String → List Spot → List Spot
  | [], _, spots => spots
  | spot :: rest, eventID, spots =>
    if fmtSprint spot.EventID = eventID then eventSpotsLoop rest eventID (spots ++ [spot])
    else eventSpotsLoop rest eventID spots

/-- Handler `getEventSpotsHandler` (lines 98-117); `eventID` is `vars["eventId"]`. -/
def getEventSpotsHandler (data : Data) (eventID : String) : Response × Data :=
  let spots := eventSpotsLoop data.Spots eventID []
  match jsonMarshal (JSON.arr (spots.map marshalSpot)) with
  | Except.error _ => (httpError "Error encoding event spots to JSON" 500, data)
  | Except.ok jsonResponse => (writeJSON jsonResponse, data)

/-- First loop of `reserveSpotHandler` (lines 138-146): the spot copied into
`spotToUpdate`, `none` when `spotFound` stays false. -/
def findSpot : List Spot → Int → String → Option Spot
  | [], _, _ => none
  | spot :: rest, eventID, name =>
    if spot.EventID = eventID ∧ spot.Name = name then some spot
    else findSpot rest eventID name

/-- Second loop of `reserveSpotHandler` (lines 160-165): the first spot with the event
id and name is overwritten with `spotToUpdate`, then the loop breaks. -/
def writeSpot : List Spot → Int → String → Spot → List Spot
  | [], _, _, _ => []
  | spot :: rest, eventID, name, spotToUpdate =>
    if spot.EventID = eventID ∧ spot.Name = name then spotToUpdate :: rest
    else spot :: writeSpot rest eventID name spotToUpdate

/-- Handler `reserveSpotHandler` (lines 119-176); `eventIDStr` is `vars["eventId"]`,
`body` the JSON value carried by the request body. -/
def reserveSpotHandler (data : Data) (eventIDStr : String) (body : Option JSON) :
    Response × Data :=
  match strconvAtoi eventIDStr with
  | none => (httpError "Invalid event ID" 400, data)
  | some eventID =>
    match decodeRequestBody body with
    | none => (httpError "Invalid request body" 400, data)
    | some requestSpot =>
      match findSpot data.Spots eventID requestSpot with
      | none => (httpError "Spot not found" 400, data)
      | some spotToUpdate =>
        if spotToUpdate.Status = "reserved" then
          (httpError "Spot is already reserved" 400, data)
        else
          let spotToUpdate := { spotToUpdate with Status := "reserved" }
          let data := { data with Spots := writeSpot data.Spots eventID requestSpot spotToUpdate }
          match jsonMarshal (JSON.obj [("message", JSON.str "Spot reserved successfully")]) with
          | Except.error _ =>
            (httpError "Error encoding reservation response to JSON" 500, data)
          | Except.ok jsonResponse => (writeJSON jsonResponse, data)

/-! ## Requests and runs -/

/-- A request to one of the four routes registered in `main` (lines 45-48). -/
inductive Request where
  | getEvents
  | getEventDetails (eventId : String)
  | getEventSpots (eventId : String)
  | reserveSpot (eventId : String) (body : Option JSON)

/-- Dispatch of a request to its handler. -/
def handle (data : Data) : Request → Response × Data
  | Request.getEvents => getEventsHandler data
  | Request.getEventDetails eventId => getEventDetailsHandler data eventId
  | Request.getEventSpots eventId => getEventSpotsHandler data eventId
  | Request.reserveSpot eventId body => reserveSpotHandler data eventId body

/-- The dataset left by a finite sequence of requests served one after another. -/
def run (data : Data) : List Request → Data
  | [] => data
  | req :: rest => run (handle data req).2 rest

/-! ## Named responses -/

/-- Success of a reservation: 200 with `{"message": "Spot reserved successfully"}`. -/
def respReserved : Response :=
  ⟨200, "application/json",
    Body.json (JSON.obj [("message", JSON.str "Spot reserved successfully")])⟩

/-- Conflict: 400 "Spot is already reserved". -/
def respConflict : Response :=
  ⟨400, "text/plain; charset=utf-8", Body.text "Spot is already reserved\n"⟩

/-- NotFound of a reservation: 400 "Spot not found". -/
def respSpotNotFound : Response :=
  ⟨400, "text/plain; charset=utf-8", Body.text "Spot not found\n"⟩

/-- InvalidArgument for the payload: 400 "Invalid request body". -/
def respInvalidBody : Response :=
  ⟨400, "text/plain; charset=utf-8", Body.text "Invalid request body\n"⟩

/-- The spot `sp` after its reservation: only `Status` is rewritten. -/
def reservedCopy (sp : Spot) : Spot :=
  { sp with Status := "reserved" }

/-- A spot carries the event id and the name of a reservation request. -/
def spotMatches (eventID : Int) (name : String) (sp : Spot) : Prop :=
  sp.EventID = eventID ∧ sp.Name = name

instance (eventID : Int) (name : String) (sp : Spot) : Decidable (spotMatches eventID name sp) := by
  unfold spotMatches; infer_instance

/-! ## Sample dataset (the end-to-end scenario) -/

/-- Event 1 of the end-to-end scenario. -/
def sampleEvent : Event :=
  ⟨1, "Concert", "Org", "2024-01-01", 1000, "L", "http://img", "2024-01-01T00:00:00", "Hall"⟩

/-- Spot `A1` of event 1, available. -/
def sampleSpot : Spot :=
  ⟨10, "A1", "available", 1⟩

/-- The dataset of the end-to-end scenario. -/
def sampleData : Data :=
  { Events := [sampleEvent], Spots := [sampleSpot] }

/-- The request body `{"spot": "A1"}`. -/
def bodyA1 : Option JSON :=
  some (JSON.obj [("spot", JSON.str "A1")])

/-! ## Further sample data and predicates on JSON values -/

/-- A dataset with a spot whose event id (2) is carried by no event. -/
def danglingData : Data :=
  { Events := [sampleEvent], Spots := [⟨20, "B1", "available", 2⟩] }

/-- The request body `{"spot": "B1"}`. -/
def bodyB1 : Option JSON :=
  some (JSON.obj [("spot", JSON.str "B1")])

/-- The request body `{"spot": "Z9"}`. -/
def bodyZ9 : Option JSON :=
  some (JSON.obj [("spot", JSON.str "Z9")])

/-- A dataset where two spots of event 1 carry the name `A1`: the first one reserved, the
second one available. -/
def duplicateData : Data :=
  { Events := [sampleEvent],
    Spots := [⟨10, "A1", "reserved", 1⟩, ⟨11, "A1", "available", 1⟩] }

/-- A JSON value that the decoder stores into, or skips for, a string field. -/
def isStringOrNull : JSON → Bool
  | JSON.str _ => true
  | JSON.null => true
  | _ => false

/-- A JSON value that the decoder accepts for the request struct: an object or `null`. -/
def isObjectOrNull : JSON → Bool
  | JSON.obj _ => true
  | JSON.null => true
  | _ => false

/-- The request body `{}`: a JSON object with no `spot` member. -/
def bodyEmptyObject : Option JSON :=
  some (JSON.obj [])

/-- The request body `{"seat": "A1"}`: a JSON object with no `spot` member. -/
def bodySeatA1 : Option JSON :=
  some (JSON.obj [("seat", JSON.str "A1")])

/-- A dataset whose only spot has the empty name. -/
def unnamedSpotData : Data :=
  { Events := [sampleEvent], Spots := [⟨10, "", "available", 1⟩] }

/-- A dataset whose spot `A1` has a status outside `available` / `reserved`. -/
def pendingData : Data :=
  { Events := [sampleEvent], Spots := [⟨10, "A1", "pending", 1⟩] }

/-- A second event with ID 2. -/
def talkEvent : Event :=
  ⟨2, "Talk", "Guild", "2024-02-02", 500, "12", "http://img/2", "2024-01-05T00:00:00", "Room"⟩

/-- A later event that carries ID 2 as well. -/
def repeatEvent : Event :=
  ⟨2, "Replay", "Guild", "2024-03-03", 700, "14", "http://img/3", "2024-01-06T00:00:00", "Yard"⟩

/-- A dataset with three events, two of them with ID 2, and four spots: two distinct spots
of event 1 around a spot of event 2, and a repeated record of the first spot. -/
def catalogData : Data :=
  { Events := [sampleEvent, talkEvent, repeatEvent],
    Spots := [sampleSpot, ⟨20, "B1", "reserved", 2⟩, ⟨11, "A2", "reserved", 1⟩, sampleSpot] }

/-! ## Calls in two phases and their interleavings -/

/-- A call of `reserveSpotHandler` between its accesses to the shared dataset: not yet
begun; past the scan and the status check (lines 119-158), holding its local
`spotToUpdate` with Status already set to "reserved"; or returned with its response.
`main.go` takes no lock, and `net/http` serves every request on a goroutine of its own, so
the phases of different calls may alternate in any order.  The cut is at the copy of the
matched spot (line 143) and at its store (line 162): the other accesses of the two loops
read `EventID` and `Name`, which no call modifies. -/
inductive Call where
  | start (eventIDStr : String) (body : Option JSON)
  | found (eventID : Int) (requestSpot : String) (spotToUpdate : Spot)
  | done (resp : Response)

/-- Read phase of `reserveSpotHandler` (lines 119-158): parsing of the request, first
loop over `data.Spots`, the two checks and the assignment to the local copy. -/
def readPhase (data : Data) (eventIDStr : String) (body : Option JSON) : Call :=
  match strconvAtoi eventIDStr with
  | none => Call.done (httpError "Invalid event ID" 400)
  | some eventID =>
    match decodeRequestBody body with
    | none => Call.done (httpError "Invalid request body" 400)
    | some requestSpot =>
      match findSpot data.Spots eventID requestSpot with
      | none => Call.done (httpError "Spot not found" 400)
      | some spotToUpdate =>
        if spotToUpdate.Status = "reserved" then
          Call.done (httpError "Spot is already reserved" 400)
        else Call.found eventID requestSpot { spotToUpdate with Status := "reserved" }

/-- Write phase of `reserveSpotHandler` (lines 160-176): second loop over `data.Spots`,
which stores the local copy, and the response. -/
def writePhase (data : Data) (eventID : Int) (requestSpot : String) (spotToUpdate : Spot) :
    Response × Data :=
  let data := { data with Spots := writeSpot data.Spots eventID requestSpot spotToUpdate }
  match jsonMarshal (JSON.obj [("message", JSON.str "Spot reserved successfully")]) with
  | Except.error _ => (httpError "Error encoding reservation response to JSON" 500, data)
  | Except.ok jsonResponse => (writeJSON jsonResponse, data)

/-- One phase of a call on the current dataset. -/
def stepCall (data : Data) : Call → Call × Data
  | Call.start eventIDStr body => (readPhase data eventIDStr body, data)
  | Call.found eventID requestSpot spotToUpdate =>
    ((Call.done (writePhase data eventID requestSpot spotToUpdate).1),
      (writePhase data eventID requestSpot spotToUpdate).2)
  | Call.done resp => (Call.done resp, data)

/-- The shared dataset together with the calls in flight, one per goroutine. -/
structure Server where
  data : Data
  calls : List Call

/-- The scheduler lets call `i` run its next phase. -/
def step (st : Server) (i : Nat) : Server :=
  match st.calls[i]? with
  | none => st
  | some c => ⟨(stepCall st.data c).2, st.calls.set i (stepCall st.data c).1⟩

/-- An interleaving: the calls take their phases in the order of the schedule. -/
def interleave (st : Server) : List Nat → Server
  | [] => st
  | i :: rest => interleave (step st i) rest

/-- The schedule that serves `n` calls one after another, beginning with call `k`: each
call runs its read phase and its write phase before the next call begins. -/
def serialSchedule : Nat → Nat → List Nat
  | _, 0 => []
  | k, n + 1 => k :: k :: serialSchedule (k + 1) n

/-- The calls for a list of requests, none of them begun. -/
def startCalls (reqs : List (String × Option JSON)) : List Call :=
  reqs.map (fun r => Call.start r.1 r.2)

/-- What a call may be while `N` requests for the spot `sp` are in flight. -/
def callInv (eventID : Int) (name : String) (sp : Spot) (written : Prop) : Call → Prop
  | Call.start eventIDStr body =>
    strconvAtoi eventIDStr = some eventID ∧ decodeRequestBody body = some name
  | Call.found id requestSpot spotToUpdate =>
    id = eventID ∧ requestSpot = name ∧ spotToUpdate = reservedCopy sp
  | Call.done resp => (resp = respReserved ∨ resp = respConflict) ∧ written

/-- What holds of the server at every point of every interleaving of `N` calls for the
spot `sp`: the dataset is the loaded one or the one with the reserved copy stored; each
call is in a state allowed by `callInv`; once the copy is stored some call has returned
Success. -/
def raceInv (data : Data) (eventID : Int) (name : String) (pre : List Spot) (sp : Spot)
    (post : List Spot) (st : Server) : Prop :=
  (st.data = data ∨ st.data = { data with Spots := pre ++ reservedCopy sp :: post }) ∧
  (∀ c ∈ st.calls, callInv eventID name sp
    (st.data = { data with Spots := pre ++ reservedCopy sp :: post }) c) ∧
  (st.data = { data with Spots := pre ++ reservedCopy sp :: post } →
    ∃ c ∈ st.calls, c = Call.done respReserved)

/-- Three requests for spot `A1` of event 1, written in three ways. -/
def threeRequests : List (String × Option JSON) :=
  [("1", bodyA1), ("+1", bodyA1), ("01", some (JSON.obj [("SPOT", JSON.str "A1")]))]

/-! # Properties -/

/-! ## Decimal rendering -/

theorem digitVal_digitChar (k : Nat) (hk : k < 10) : digitVal (Nat.digitChar k) = k := by
  interval_cases k <;> rfl

theorem digitChar_ne_minus (k : Nat) (hk : k < 10) : Nat.digitChar k ≠ '-' := by
  interval_cases k <;> decide

theorem decimalVal_append_single (ds : List Char) (c : Char) :
    decimalVal (ds ++ [c]) = decimalVal ds * 10 + digitVal c := by
  simp [decimalVal, List.foldl_append]

theorem toDigitsCore_append (fuel : Nat) : ∀ (n : Nat) (ds : List Char),
    Nat.toDigitsCore 10 fuel n ds = Nat.toDigitsCore 10 fuel n [] ++ ds := by
  induction fuel with
  | zero => intro n ds; simp [Nat.toDigitsCore]
  | succ fuel ih =>
    intro n ds
    simp only [Nat.toDigitsCore]
    by_cases h : n / 10 = 0
    · simp [h]
    · simp only [h, if_false]
      rw [ih (n / 10) (Nat.digitChar (n % 10) :: ds), ih (n / 10) [Nat.digitChar (n % 10)]]
      simp

theorem decimalVal_toDigitsCore (fuel : Nat) : ∀ n : Nat, n < fuel →
    decimalVal (Nat.toDigitsCore 10 fuel n []) = n := by
  induction fuel with
  | zero => intro n h; omega
  | succ fuel ih =>
    intro n hn
    simp only [Nat.toDigitsCore]
    by_cases h : n / 10 = 0
    · simp only [h, if_true]
      have hlt : n < 10 := by omega
      have hmod : n % 10 = n := by omega
      rw [hmod]
      simp [decimalVal, digitVal_digitChar n hlt]
    · simp only [h, if_false]
      rw [toDigitsCore_append, decimalVal_append_single, ih (n / 10) (by omega),
        digitVal_digitChar (n % 10) (Nat.mod_lt _ (by norm_num))]
      omega

theorem toDigitsCore_head (fuel : Nat) : ∀ (n : Nat) (ds : List Char), 0 < fuel →
    ∃ k, k < 10 ∧ ∃ tl, Nat.toDigitsCore 10 fuel n ds = Nat.digitChar k :: tl := by
  induction fuel with
  | zero => intro n ds h; omega
  | succ fuel ih =>
    intro n ds _
    simp only [Nat.toDigitsCore]
    by_cases h : n / 10 = 0
    · exact ⟨n % 10, Nat.mod_lt _ (by norm_num), ds, by simp [h]⟩
    · simp only [h, if_false]
      cases fuel with
      | zero => exact ⟨n % 10, Nat.mod_lt _ (by norm_num), ds, by simp [Nat.toDigitsCore]⟩
      | succ f => exact ih _ _ (by omega)

theorem decimalVal_repr (n : Nat) : decimalVal (Nat.repr n).data = n := by
  simp only [Nat.repr, Nat.toDigits, List.asString]
  exact decimalVal_toDigitsCore (n + 1) n (by omega)

theorem repr_injective {a b : Nat} (h : Nat.repr a = Nat.repr b) : a = b := by
  have := congrArg (fun s => decimalVal s.data) h
  simpa [decimalVal_repr] using this

theorem repr_head (n : Nat) : ∃ k, k < 10 ∧ ∃ tl, (Nat.repr n).data = Nat.digitChar k :: tl := by
  simp only [Nat.repr, Nat.toDigits, List.asString]
  exact toDigitsCore_head (n + 1) n [] (by omega)

theorem repr_ne_minus (a b : Nat) : Nat.repr a ≠ "-" ++ Nat.repr b := by
  intro h
  obtain ⟨k, hk, tl, hd⟩ := repr_head a
  have h2 := congrArg String.data h
  rw [hd] at h2
  simp only [String.data_append] at h2
  simp only [List.singleton_append, List.cons.injEq] at h2
  exact digitChar_ne_minus k hk h2.1

theorem fmtSprint_injective {a b : Int} (h : fmtSprint a = fmtSprint b) : a = b := by
  cases a with
  | ofNat m =>
    cases b with
    | ofNat n => simp only [fmtSprint] at h; rw [repr_injective h]
    | negSucc n => simp only [fmtSprint] at h; exact absurd h (repr_ne_minus _ _)
  | negSucc m =>
    cases b with
    | ofNat n => simp only [fmtSprint] at h; exact absurd h.symm (repr_ne_minus _ _)
    | negSucc n =>
      simp only [fmtSprint] at h
      have h2 := congrArg String.data h
      simp only [String.data_append, List.append_cancel_left_eq] at h2
      have h3 : Nat.repr (m + 1) = Nat.repr (n + 1) := String.ext h2
      have := repr_injective h3
      have : m = n := by omega
      rw [this]

theorem fmtSprint_eq_iff (a b : Int) : fmtSprint a = fmtSprint b ↔ a = b :=
  ⟨fmtSprint_injective, fun h => by rw [h]⟩

/-! ## The two loops of the reservation handler -/

theorem findSpot_split (pre : List Spot) (sp : Spot) (post : List Spot) (eventID : Int)
    (name : String) (hpre : ∀ x ∈ pre, ¬ spotMatches eventID name x)
    (hsp : spotMatches eventID name sp) :
    findSpot (pre ++ sp :: post) eventID name = some sp := by
  induction pre with
  | nil =>
    have h : sp.EventID = eventID ∧ sp.Name = name := hsp
    simp [findSpot, h]
  | cons x pre ih =>
    have hx : ¬ (x.EventID = eventID ∧ x.Name = name) := hpre x (List.mem_cons_self _ _)
    have ih2 := ih (fun y hy => hpre y (List.mem_cons_of_mem _ hy))
    show findSpot (x :: (pre ++ sp :: post)) eventID name = some sp
    simp only [findSpot, hx, if_false]
    exact ih2

theorem writeSpot_split (pre : List Spot) (sp : Spot) (post : List Spot) (eventID : Int)
    (name : String) (new : Spot) (hpre : ∀ x ∈ pre, ¬ spotMatches eventID name x)
    (hsp : spotMatches eventID name sp) :
    writeSpot (pre ++ sp :: post) eventID name new = pre ++ new :: post := by
  induction pre with
  | nil =>
    have h : sp.EventID = eventID ∧ sp.Name = name := hsp
    simp [writeSpot, h]
  | cons x pre ih =>
    have hx : ¬ (x.EventID = eventID ∧ x.Name = name) := hpre x (List.mem_cons_self _ _)
    have ih2 := ih (fun y hy => hpre y (List.mem_cons_of_mem _ hy))
    show writeSpot (x :: (pre ++ sp :: post)) eventID name new = x :: (pre ++ new :: post)
    simp only [writeSpot, hx, if_false]
    rw [ih2]

theorem findSpot_some_split (spots : List Spot) (eventID : Int) (name : String) (sp : Spot)
    (h : findSpot spots eventID name = some sp) :
    ∃ pre post, spots = pre ++ sp :: post ∧ (∀ x ∈ pre, ¬ spotMatches eventID name x) ∧
      spotMatches eventID name sp := by
  induction spots with
  | nil => simp [findSpot] at h
  | cons x rest ih =>
    by_cases hx : x.EventID = eventID ∧ x.Name = name
    · simp only [findSpot, hx, and_self, if_true, Option.some.injEq] at h
      subst h
      exact ⟨[], rest, rfl, by simp, hx⟩
    · simp only [findSpot, hx, if_false] at h
      obtain ⟨pre, post, h1, h2, h3⟩ := ih h
      refine ⟨x :: pre, post, by rw [h1]; rfl, ?_, h3⟩
      intro y hy
      rcases List.mem_cons.mp hy with rfl | hy
      · exact hx
      · exact h2 y hy

theorem findSpot_none_iff (spots : List Spot) (eventID : Int) (name : String) :
    findSpot spots eventID name = none ↔ ∀ x ∈ spots, ¬ spotMatches eventID name x := by
  induction spots with
  | nil => simp [findSpot]
  | cons x rest ih =>
    by_cases hx : x.EventID = eventID ∧ x.Name = name
    · simp only [findSpot, hx, and_self, if_true, List.mem_cons, forall_eq_or_imp]
      constructor
      · intro h; cases h
      · intro h; exact absurd hx h.1
    · simp only [findSpot, hx, if_false, List.mem_cons, forall_eq_or_imp, ih]
      constructor
      · intro h; exact ⟨hx, h⟩
      · intro h; exact h.2

/-- The reservation handler on a valid request, in terms of the first matching spot. -/
theorem reserve_eq (data : Data) (eventIDStr : String) (body : Option JSON) (eventID : Int)
    (name : String) (hid : strconvAtoi eventIDStr = some eventID)
    (hbody : decodeRequestBody body = some name) :
    reserveSpotHandler data eventIDStr body =
      match findSpot data.Spots eventID name with
      | none => (respSpotNotFound, data)
      | some sp =>
        if sp.Status = "reserved" then (respConflict, data)
        else (respReserved,
          { data with Spots := writeSpot data.Spots eventID name (reservedCopy sp) }) := by
  simp only [reserveSpotHandler, hid, hbody, jsonMarshal]
  rfl

theorem reserve_split (data : Data) (eventIDStr : String) (body : Option JSON) (eventID : Int)
    (name : String) (pre : List Spot) (sp : Spot) (post : List Spot)
    (hid : strconvAtoi eventIDStr = some eventID)
    (hbody : decodeRequestBody body = some name)
    (hsplit : data.Spots = pre ++ sp :: post)
    (hpre : ∀ x ∈ pre, ¬ spotMatches eventID name x)
    (hsp : spotMatches eventID name sp) :
    reserveSpotHandler data eventIDStr body =
      if sp.Status = "reserved" then (respConflict, data)
      else (respReserved, { data with Spots := pre ++ reservedCopy sp :: post }) := by
  rw [reserve_eq data eventIDStr body eventID name hid hbody, hsplit,
    findSpot_split pre sp post eventID name hpre hsp]
  simp only [writeSpot_split pre sp post eventID name _ hpre hsp]

/-! ## The reservation handler -/

theorem respConflict_ne_respReserved : respConflict ≠ respReserved := by
  intro h
  exact absurd (congrArg Response.status h) (by decide)

theorem respSpotNotFound_ne_respReserved : respSpotNotFound ≠ respReserved := by
  intro h
  exact absurd (congrArg Response.status h) (by decide)

theorem respInvalidBody_ne_respReserved : respInvalidBody ≠ respReserved := by
  intro h
  exact absurd (congrArg Response.status h) (by decide)

theorem respSpotNotFound_ne_respConflict : respSpotNotFound ≠ respConflict := by
  intro h
  simp only [respSpotNotFound, respConflict, Response.mk.injEq, Body.text.injEq] at h
  exact absurd h.2.2 (by decide)

theorem respInvalidBody_ne_respConflict : respInvalidBody ≠ respConflict := by
  intro h
  simp only [respInvalidBody, respConflict, Response.mk.injEq, Body.text.injEq] at h
  exact absurd h.2.2 (by decide)

theorem respInvalidBody_ne_respSpotNotFound : respInvalidBody ≠ respSpotNotFound := by
  intro h
  simp only [respInvalidBody, respSpotNotFound, Response.mk.injEq, Body.text.injEq] at h
  exact absurd h.2.2 (by decide)

theorem getElem_split (pre : List Spot) (sp : Spot) (post : List Spot) :
    (pre ++ sp :: post)[pre.length]? = some sp := by
  rw [List.getElem?_append_right (le_refl _)]
  simp

theorem reservedCopy_matches {eventID : Int} {name : String} {sp : Spot}
    (h : spotMatches eventID name sp) : spotMatches eventID name (reservedCopy sp) := h

/-- C1. Two reservation requests in immediate succession for the same event id and the
same spot name: when the first one answers Success, the second one, served on the
dataset the first one left, answers Conflict (400 "Spot is already reserved") and hence
not Success. -/
theorem reserve_twice_conflict (data : Data) (s1 s2 : String) (b1 b2 : Option JSON)
    (eventID : Int) (name : String)
    (hid1 : strconvAtoi s1 = some eventID) (hid2 : strconvAtoi s2 = some eventID)
    (hb1 : decodeRequestBody b1 = some name) (hb2 : decodeRequestBody b2 = some name)
    (hfirst : (reserveSpotHandler data s1 b1).1 = respReserved) :
    (reserveSpotHandler (reserveSpotHandler data s1 b1).2 s2 b2).1 = respConflict ∧
      (reserveSpotHandler (reserveSpotHandler data s1 b1).2 s2 b2).1 ≠ respReserved := by
  have key : (reserveSpotHandler (reserveSpotHandler data s1 b1).2 s2 b2).1 = respConflict := by
    rw [reserve_eq data s1 b1 eventID name hid1 hb1] at hfirst ⊢
    cases hf : findSpot data.Spots eventID name with
    | none =>
      rw [hf] at hfirst
      exact absurd hfirst respSpotNotFound_ne_respReserved
    | some sp =>
      rw [hf] at hfirst
      simp only at hfirst ⊢
      by_cases hst : sp.Status = "reserved"
      · rw [if_pos hst] at hfirst
        exact absurd hfirst respConflict_ne_respReserved
      · rw [if_neg hst]
        obtain ⟨pre, post, hsplit, hpre, hsp⟩ := findSpot_some_split _ _ _ _ hf
        rw [hsplit, writeSpot_split pre sp post eventID name _ hpre hsp]
        rw [reserve_split _ s2 b2 eventID name pre (reservedCopy sp) post hid2 hb2 rfl hpre
          (reservedCopy_matches hsp)]
        simp [reservedCopy]
  exact ⟨key, by rw [key]; exact respConflict_ne_respReserved⟩

theorem reserve_twice_conflict_witness :
    (reserveSpotHandler (reserveSpotHandler sampleData "1" bodyA1).2 "1" bodyA1).1 = respConflict ∧
      (reserveSpotHandler (reserveSpotHandler sampleData "1" bodyA1).2 "1" bodyA1).1 ≠
        respReserved :=
  reserve_twice_conflict sampleData "1" "1" bodyA1 bodyA1 1 "A1" (by decide) (by decide)
    (by decide) (by decide) (by rfl)

/-- C2. Reserving when the first spot in storage order with the event id and the name is
"available": the answer is Success with message "Spot reserved successfully"; the
new dataset has the same events and as many spots, and differs from the old one at
exactly the index of that spot, whose record keeps ID, Name and EventID and has Status
"reserved". -/
theorem reserve_available (data : Data) (eventIDStr : String) (body : Option JSON)
    (eventID : Int) (name : String) (pre : List Spot) (sp : Spot) (post : List Spot)
    (hid : strconvAtoi eventIDStr = some eventID)
    (hbody : decodeRequestBody body = some name)
    (hsplit : data.Spots = pre ++ sp :: post)
    (hpre : ∀ x ∈ pre, ¬ spotMatches eventID name x)
    (hsp : spotMatches eventID name sp)
    (hav : sp.Status = "available") :
    (reserveSpotHandler data eventIDStr body).1 = respReserved ∧
    (reserveSpotHandler data eventIDStr body).2.Events = data.Events ∧
    (reserveSpotHandler data eventIDStr body).2.Spots.length = data.Spots.length ∧
    (reserveSpotHandler data eventIDStr body).2.Spots = pre ++ reservedCopy sp :: post ∧
    (∀ i, i ≠ pre.length →
      (reserveSpotHandler data eventIDStr body).2.Spots[i]? = data.Spots[i]?) ∧
    data.Spots[pre.length]? = some sp ∧
    (reserveSpotHandler data eventIDStr body).2.Spots[pre.length]? = some (reservedCopy sp) ∧
    reservedCopy sp ≠ sp ∧
    reservedCopy sp = ⟨sp.ID, sp.Name, "reserved", sp.EventID⟩ := by
  have hne : ¬ sp.Status = "reserved" := by rw [hav]; decide
  have hr := reserve_split data eventIDStr body eventID name pre sp post hid hbody hsplit hpre hsp
  rw [if_neg hne] at hr
  rw [hr, hsplit]
  refine ⟨rfl, rfl, by simp, rfl, ?_, getElem_split _ _ _, getElem_split _ _ _, ?_, rfl⟩
  · intro i hi
    simp only
    rcases Nat.lt_or_gt_of_ne hi with h | h
    · rw [List.getElem?_append_left h, List.getElem?_append_left h]
    · rw [List.getElem?_append_right (by omega), List.getElem?_append_right (by omega)]
      obtain ⟨k, hk⟩ : ∃ k, i - pre.length = k + 1 := ⟨i - pre.length - 1, by omega⟩
      rw [hk]; rfl
  · intro h
    have h2 : (reservedCopy sp).Status = sp.Status := congrArg Spot.Status h
    rw [hav] at h2
    exact absurd h2 (by simp [reservedCopy])

theorem reserve_available_witness :
    (reserveSpotHandler sampleData "1" bodyA1).1 = respReserved ∧
    (reserveSpotHandler sampleData "1" bodyA1).2.Events = sampleData.Events ∧
    (reserveSpotHandler sampleData "1" bodyA1).2.Spots.length = sampleData.Spots.length ∧
    (reserveSpotHandler sampleData "1" bodyA1).2.Spots = [] ++ reservedCopy sampleSpot :: [] ∧
    (∀ i, i ≠ ([] : List Spot).length →
      (reserveSpotHandler sampleData "1" bodyA1).2.Spots[i]? = sampleData.Spots[i]?) ∧
    sampleData.Spots[([] : List Spot).length]? = some sampleSpot ∧
    (reserveSpotHandler sampleData "1" bodyA1).2.Spots[([] : List Spot).length]? =
      some (reservedCopy sampleSpot) ∧
    reservedCopy sampleSpot ≠ sampleSpot ∧
    reservedCopy sampleSpot = ⟨sampleSpot.ID, sampleSpot.Name, "reserved", sampleSpot.EventID⟩ :=
  reserve_available sampleData "1" bodyA1 1 "A1" [] sampleSpot [] (by decide) (by decide) rfl
    (by simp) (by decide) rfl

/-- C3, as stated, fails: no event of `danglingData` has identifier 2, yet the
reservation of spot `B1` for event id 2 answers Success, not "Spot not found", and
the dataset is changed. -/
theorem reserve_unknown_event_succeeds :
    (∀ e ∈ danglingData.Events, e.ID ≠ 2) ∧
    strconvAtoi "2" = some 2 ∧ decodeRequestBody bodyB1 = some "B1" ∧
    (reserveSpotHandler danglingData "2" bodyB1).1 = respReserved ∧
    (reserveSpotHandler danglingData "2" bodyB1).1 ≠ respSpotNotFound ∧
    (reserveSpotHandler danglingData "2" bodyB1).2 ≠ danglingData := by
  have h : (reserveSpotHandler danglingData "2" bodyB1).1 = respReserved := rfl
  refine ⟨by decide, by decide, by decide, h, ?_, by decide⟩
  rw [h]
  exact fun e => respSpotNotFound_ne_respReserved e.symm

/-- C3, amended. When no spot of the dataset carries both the event id and the name -
which is the case when no spot of that event has that name, and also when no event has
that identifier provided every spot refers to an existing event - the reservation
answers NotFound (400 "Spot not found"), which is neither Conflict nor Success, and the
dataset is unchanged. -/
theorem reserve_not_found (data : Data) (eventIDStr : String) (body : Option JSON)
    (eventID : Int) (name : String)
    (hid : strconvAtoi eventIDStr = some eventID)
    (hbody : decodeRequestBody body = some name)
    (hno : ((∀ e ∈ data.Events, e.ID ≠ eventID) ∧
          (∀ s ∈ data.Spots, ∃ e ∈ data.Events, e.ID = s.EventID)) ∨
        (∀ s ∈ data.Spots, s.EventID = eventID → s.Name ≠ name)) :
    reserveSpotHandler data eventIDStr body = (respSpotNotFound, data) ∧
    respSpotNotFound = httpError "Spot not found" 400 ∧
    respSpotNotFound ≠ respConflict ∧ respSpotNotFound ≠ respReserved := by
  have hnone : findSpot data.Spots eventID name = none := by
    rw [findSpot_none_iff]
    intro x hx hm
    rcases hno with ⟨hev, href⟩ | hname
    · obtain ⟨e, he, hid⟩ := href x hx
      exact hev e he (hid.trans hm.1)
    · exact hname x hx hm.1 hm.2
  refine ⟨?_, rfl, respSpotNotFound_ne_respConflict, respSpotNotFound_ne_respReserved⟩
  rw [reserve_eq data eventIDStr body eventID name hid hbody, hnone]

theorem reserve_not_found_witness :
    reserveSpotHandler sampleData "1" bodyZ9 = (respSpotNotFound, sampleData) ∧
    respSpotNotFound = httpError "Spot not found" 400 ∧
    respSpotNotFound ≠ respConflict ∧ respSpotNotFound ≠ respReserved :=
  reserve_not_found sampleData "1" bodyZ9 1 "Z9" (by decide) (by decide)
    (Or.inr (by decide))

/-- C4. When at least one spot carries the event id and the name, the reservation
answers Conflict (400 "Spot is already reserved") exactly when the first such spot in
storage order is "reserved", whatever the later spots are; in that case the dataset is
unchanged. -/
theorem reserve_conflict_iff (data : Data) (eventIDStr : String) (body : Option JSON)
    (eventID : Int) (name : String) (pre : List Spot) (sp : Spot) (post : List Spot)
    (hid : strconvAtoi eventIDStr = some eventID)
    (hbody : decodeRequestBody body = some name)
    (hsplit : data.Spots = pre ++ sp :: post)
    (hpre : ∀ x ∈ pre, ¬ spotMatches eventID name x)
    (hsp : spotMatches eventID name sp) :
    ((reserveSpotHandler data eventIDStr body).1 = respConflict ↔ sp.Status = "reserved") ∧
    (sp.Status = "reserved" → reserveSpotHandler data eventIDStr body = (respConflict, data)) ∧
    respConflict = httpError "Spot is already reserved" 400 := by
  have hr := reserve_split data eventIDStr body eventID name pre sp post hid hbody hsplit hpre hsp
  refine ⟨?_, ?_, rfl⟩
  · by_cases hst : sp.Status = "reserved"
    · rw [hr, if_pos hst]; simp [hst]
    · rw [hr, if_neg hst]
      simp only [hst, iff_false]
      exact fun h => respConflict_ne_respReserved h.symm
  · intro hst
    rw [hr, if_pos hst]

theorem reserve_conflict_iff_witness :
    ((reserveSpotHandler duplicateData "1" bodyA1).1 = respConflict ↔
      (⟨10, "A1", "reserved", 1⟩ : Spot).Status = "reserved") ∧
    ((⟨10, "A1", "reserved", 1⟩ : Spot).Status = "reserved" →
      reserveSpotHandler duplicateData "1" bodyA1 = (respConflict, duplicateData)) ∧
    respConflict = httpError "Spot is already reserved" 400 :=
  reserve_conflict_iff duplicateData "1" bodyA1 1 "A1" [] ⟨10, "A1", "reserved", 1⟩
    [⟨11, "A1", "available", 1⟩] (by decide) (by decide) rfl (by simp) (by decide)

/-! ## Read-side lookups -/

theorem marshalEvent_injective : Function.Injective marshalEvent := by
  intro a b h
  cases a; cases b
  simp only [marshalEvent, JSON.obj.injEq, List.cons.injEq, Prod.mk.injEq, JSON.num.injEq,
    JSON.str.injEq, true_and, and_true, fmtSprint_eq_iff] at h
  simp only [Event.mk.injEq]
  tauto

theorem marshalSpot_injective : Function.Injective marshalSpot := by
  intro a b h
  cases a; cases b
  simp only [marshalSpot, JSON.obj.injEq, List.cons.injEq, Prod.mk.injEq, JSON.num.injEq,
    JSON.str.injEq, true_and, and_true, fmtSprint_eq_iff] at h
  simp only [Spot.mk.injEq]
  tauto

theorem eventDetailsLoop_split (pre : List Event) (e : Event) (post : List Event) (id : Int)
    (hpre : ∀ x ∈ pre, x.ID ≠ id) (he : e.ID = id) :
    eventDetailsLoop (pre ++ e :: post) (fmtSprint id) = some (writeJSON (marshalEvent e)) := by
  induction pre with
  | nil => simp [eventDetailsLoop, he, jsonMarshal]
  | cons x pre ih =>
    have hx : ¬ fmtSprint x.ID = fmtSprint id := by
      rw [fmtSprint_eq_iff]; exact hpre x (List.mem_cons_self _ _)
    show eventDetailsLoop (x :: (pre ++ e :: post)) (fmtSprint id) = _
    simp only [eventDetailsLoop, hx, if_false]
    exact ih (fun y hy => hpre y (List.mem_cons_of_mem _ hy))

theorem eventDetailsLoop_none (events : List Event) (id : Int)
    (h : ∀ x ∈ events, x.ID ≠ id) : eventDetailsLoop events (fmtSprint id) = none := by
  induction events with
  | nil => rfl
  | cons x rest ih =>
    have hx : ¬ fmtSprint x.ID = fmtSprint id := by
      rw [fmtSprint_eq_iff]; exact h x (List.mem_cons_self _ _)
    simp only [eventDetailsLoop, hx, if_false]
    exact ih (fun y hy => h y (List.mem_cons_of_mem _ hy))

theorem exists_first_event (events : List Event) (id : Int) (h : ∃ e ∈ events, e.ID = id) :
    ∃ pre e post, events = pre ++ e :: post ∧ (∀ x ∈ pre, x.ID ≠ id) ∧ e.ID = id := by
  induction events with
  | nil => obtain ⟨e, he, _⟩ := h; cases he
  | cons x rest ih =>
    by_cases hx : x.ID = id
    · exact ⟨[], x, rest, rfl, by simp, hx⟩
    · obtain ⟨e, he, hid⟩ := h
      rcases List.mem_cons.mp he with rfl | he
      · exact absurd hid hx
      · obtain ⟨pre, e', post, h1, h2, h3⟩ := ih ⟨e, he, hid⟩
        refine ⟨x :: pre, e', post, by rw [h1]; rfl, ?_, h3⟩
        intro y hy
        rcases List.mem_cons.mp hy with rfl | hy
        · exact hx
        · exact h2 y hy

/-- C5. `getEventDetailsHandler`, called with the decimal rendering of `id`: when some
event has that ID the answer is 200, `application/json`, with the JSON object that holds
the nine fields of the first event in dataset order whose ID is `id`, each under its tag
and unchanged (the decimal rendering determines the integer); when no event has that ID
the answer is 404.  The dataset is returned as it was. -/
theorem getEventDetails_spec (data : Data) (id : Int) :
    (∀ pre e post, data.Events = pre ++ e :: post → (∀ x ∈ pre, x.ID ≠ id) → e.ID = id →
      getEventDetailsHandler data (fmtSprint id) =
        (⟨200, "application/json", Body.json (JSON.obj
          [("id", JSON.num (fmtSprint e.ID)),
           ("name", JSON.str e.Name),
           ("organization", JSON.str e.Organization),
           ("date", JSON.str e.Date),
           ("price", JSON.num (fmtSprint e.Price)),
           ("rating", JSON.str e.Rating),
           ("image_url", JSON.str e.ImageURL),
           ("created_at", JSON.str e.CreatedAt),
           ("location", JSON.str e.Location)])⟩, data)) ∧
    ((∃ e ∈ data.Events, e.ID = id) →
      ∃ pre e post, data.Events = pre ++ e :: post ∧ (∀ x ∈ pre, x.ID ≠ id) ∧ e.ID = id ∧
        getEventDetailsHandler data (fmtSprint id) =
          (⟨200, "application/json", Body.json (JSON.obj
            [("id", JSON.num (fmtSprint e.ID)),
             ("name", JSON.str e.Name),
             ("organization", JSON.str e.Organization),
             ("date", JSON.str e.Date),
             ("price", JSON.num (fmtSprint e.Price)),
             ("rating", JSON.str e.Rating),
             ("image_url", JSON.str e.ImageURL),
             ("created_at", JSON.str e.CreatedAt),
             ("location", JSON.str e.Location)])⟩, data)) ∧
    ((∀ e ∈ data.Events, e.ID ≠ id) →
      getEventDetailsHandler data (fmtSprint id) =
        (⟨404, "text/plain; charset=utf-8", Body.text "404 page not found\n"⟩, data)) ∧
    Function.Injective fmtSprint ∧
    (getEventDetailsHandler data (fmtSprint id)).2 = data := by
  have first : ∀ pre e post, data.Events = pre ++ e :: post → (∀ x ∈ pre, x.ID ≠ id) →
      e.ID = id →
      getEventDetailsHandler data (fmtSprint id) = (writeJSON (marshalEvent e), data) := by
    intro pre e post hsplit hpre he
    simp only [getEventDetailsHandler, hsplit, eventDetailsLoop_split pre e post id hpre he]
  refine ⟨?_, ?_, ?_, fun a b h => fmtSprint_injective h, ?_⟩
  · intro pre e post h1 h2 h3
    rw [first pre e post h1 h2 h3]
    rfl
  · intro h
    obtain ⟨pre, e, post, h1, h2, h3⟩ := exists_first_event data.Events id h
    refine ⟨pre, e, post, h1, h2, h3, ?_⟩
    rw [first pre e post h1 h2 h3]
    rfl
  · intro h
    simp only [getEventDetailsHandler, eventDetailsLoop_none data.Events id h]
    rfl
  · simp only [getEventDetailsHandler]
    cases eventDetailsLoop data.Events (fmtSprint id) <;> rfl

theorem getEventDetails_spec_witness :
    getEventDetailsHandler catalogData "2" =
        (⟨200, "application/json", Body.json (JSON.obj
          [("id", JSON.num "2"),
           ("name", JSON.str "Talk"),
           ("organization", JSON.str "Guild"),
           ("date", JSON.str "2024-02-02"),
           ("price", JSON.num "500"),
           ("rating", JSON.str "12"),
           ("image_url", JSON.str "http://img/2"),
           ("created_at", JSON.str "2024-01-05T00:00:00"),
           ("location", JSON.str "Room")])⟩, catalogData) ∧
      getEventDetailsHandler catalogData "999" =
        (⟨404, "text/plain; charset=utf-8", Body.text "404 page not found\n"⟩, catalogData) :=
  ⟨(getEventDetails_spec catalogData 2).1 [sampleEvent] talkEvent [repeatEvent] rfl
      (by decide) rfl,
   (getEventDetails_spec catalogData 999).2.2.1 (by decide)⟩

theorem eventSpotsLoop_eq (spots : List Spot) (id : Int) : ∀ acc : List Spot,
    eventSpotsLoop spots (fmtSprint id) acc =
      acc ++ spots.filter (fun s => decide (s.EventID = id)) := by
  induction spots with
  | nil => intro acc; simp [eventSpotsLoop]
  | cons x rest ih =>
    intro acc
    by_cases hx : x.EventID = id
    · simp [eventSpotsLoop, hx, ih]
    · have hx2 : ¬ fmtSprint x.EventID = fmtSprint id := by rw [fmtSprint_eq_iff]; exact hx
      simp [eventSpotsLoop, hx, hx2, ih]

/-- C6. `getEventSpotsHandler`, called with the decimal rendering of `id`, always
answers 200, `application/json`, with the JSON array that holds, for exactly the spots
whose EventID is `id`, the object of their four fields under their tags: the slice the
loop collects is the filtered sub-sequence of the spots of the dataset, each spot as often
as in the dataset and in dataset order, and the array is empty when no spot has that event
id.  The dataset is returned as it was. -/
theorem getEventSpots_spec (data : Data) (id : Int) :
    getEventSpotsHandler data (fmtSprint id) =
      (⟨200, "application/json", Body.json (JSON.arr
        ((data.Spots.filter (fun s => decide (s.EventID = id))).map (fun s => JSON.obj
          [("id", JSON.num (fmtSprint s.ID)),
           ("name", JSON.str s.Name),
           ("status", JSON.str s.Status),
           ("event_id", JSON.num (fmtSprint s.EventID))])))⟩, data) ∧
    eventSpotsLoop data.Spots (fmtSprint id) [] =
      data.Spots.filter (fun s => decide (s.EventID = id)) ∧
    List.Sublist (eventSpotsLoop data.Spots (fmtSprint id) []) data.Spots ∧
    (∀ s, s ∈ eventSpotsLoop data.Spots (fmtSprint id) [] ↔ s ∈ data.Spots ∧ s.EventID = id) ∧
    (∀ s, s.EventID = id →
      (eventSpotsLoop data.Spots (fmtSprint id) []).count s = data.Spots.count s) ∧
    ((∀ s ∈ data.Spots, s.EventID ≠ id) →
      getEventSpotsHandler data (fmtSprint id) =
        (⟨200, "application/json", Body.json (JSON.arr [])⟩, data)) ∧
    Function.Injective fmtSprint := by
  have hloop : eventSpotsLoop data.Spots (fmtSprint id) [] =
      data.Spots.filter (fun s => decide (s.EventID = id)) := by
    rw [eventSpotsLoop_eq, List.nil_append]
  have main : getEventSpotsHandler data (fmtSprint id) =
      (writeJSON (JSON.arr ((data.Spots.filter (fun s => decide (s.EventID = id))).map
        marshalSpot)), data) := by
    simp only [getEventSpotsHandler, jsonMarshal, eventSpotsLoop_eq, List.nil_append]
  refine ⟨by rw [main]; rfl, hloop, ?_, ?_, ?_, ?_, fun a b h => fmtSprint_injective h⟩
  · rw [hloop]; exact List.filter_sublist _
  · intro s; rw [hloop]; simp [List.mem_filter]
  · intro s hs
    rw [hloop, List.count_filter]
    simpa using hs
  · intro h
    rw [main]
    have : data.Spots.filter (fun s => decide (s.EventID = id)) = [] := by
      rw [List.filter_eq_nil_iff]
      intro s hs
      simpa using h s hs
    rw [this]; rfl

theorem getEventSpots_spec_witness :
    getEventSpotsHandler catalogData "1" =
        (⟨200, "application/json", Body.json (JSON.arr
          [JSON.obj [("id", JSON.num "10"), ("name", JSON.str "A1"),
             ("status", JSON.str "available"), ("event_id", JSON.num "1")],
           JSON.obj [("id", JSON.num "11"), ("name", JSON.str "A2"),
             ("status", JSON.str "reserved"), ("event_id", JSON.num "1")],
           JSON.obj [("id", JSON.num "10"), ("name", JSON.str "A1"),
             ("status", JSON.str "available"), ("event_id", JSON.num "1")]])⟩, catalogData) ∧
      getEventSpotsHandler catalogData "999" =
        (⟨200, "application/json", Body.json (JSON.arr [])⟩, catalogData) :=
  ⟨(getEventSpots_spec catalogData 1).1,
   (getEventSpots_spec catalogData 999).2.2.2.2.2.1 (by decide)⟩

/-! ## Decoding of the request body -/

theorem decodeFields_bad (fields : List (String × JSON)) : ∀ cur : String,
    (decodeFields fields cur true).2 = true := by
  induction fields with
  | nil => intro cur; rfl
  | cons kv rest ih =>
    intro cur
    obtain ⟨k, v⟩ := kv
    by_cases hk : keyIsSpot k = true
    · cases v <;> simp only [decodeFields, hk, if_true] <;> exact ih _
    · simp only [decodeFields, hk]
      exact ih _

theorem decodeFields_mismatch (fields : List (String × JSON))
    (h : ∃ kv ∈ fields, keyIsSpot kv.1 = true ∧ isStringOrNull kv.2 = false) :
    ∀ (cur : String) (bad : Bool), (decodeFields fields cur bad).2 = true := by
  induction fields with
  | nil => obtain ⟨kv, hkv, _⟩ := h; cases hkv
  | cons kv rest ih =>
    intro cur bad
    obtain ⟨k, v⟩ := kv
    obtain ⟨kv', hmem, hk', hv'⟩ := h
    rcases List.mem_cons.mp hmem with rfl | hmem
    · simp only at hk' hv'
      cases v <;> simp only [decodeFields, hk', if_true] <;>
        first
        | exact decodeFields_bad _ _
        | simp [isStringOrNull] at hv'
    · have ih2 := ih ⟨kv', hmem, hk', hv'⟩
      by_cases hk : keyIsSpot k = true
      · cases v <;> simp only [decodeFields, hk, if_true] <;> exact ih2 _ _
      · simp only [decodeFields, hk]
        exact ih2 _ _

theorem decodeFields_no_key (fields : List (String × JSON))
    (h : ∀ kv ∈ fields, keyIsSpot kv.1 = false) :
    ∀ (cur : String) (bad : Bool), decodeFields fields cur bad = (cur, bad) := by
  induction fields with
  | nil => intro cur bad; rfl
  | cons kv rest ih =>
    intro cur bad
    obtain ⟨k, v⟩ := kv
    have hk : keyIsSpot k = false := h (k, v) (List.mem_cons_self _ _)
    simp only [decodeFields, hk]
    exact ih (fun y hy => h y (List.mem_cons_of_mem _ hy)) cur bad

theorem decodeFields_clean (fields : List (String × JSON))
    (h : ∀ kv ∈ fields, keyIsSpot kv.1 = true → isStringOrNull kv.2 = true) :
    ∀ cur : String, (decodeFields fields cur false).2 = false := by
  induction fields with
  | nil => intro cur; rfl
  | cons kv rest ih =>
    intro cur
    obtain ⟨k, v⟩ := kv
    have ih2 := ih (fun y hy => h y (List.mem_cons_of_mem _ hy))
    by_cases hk : keyIsSpot k = true
    · have hv : isStringOrNull v = true := h (k, v) (List.mem_cons_self _ _) hk
      cases v <;> simp only [decodeFields, hk, if_true] <;>
        first
        | exact ih2 _
        | simp [isStringOrNull] at hv
    · simp only [decodeFields, hk]
      exact ih2 _

/-- The bodies on which `Decode` returns an error: no well-formed first value, a value
nested too deep, a value that is neither an object nor `null`, or an object with a `spot`
member that is neither a string nor `null`. -/
theorem decodeRequestBody_none_iff (body : Option JSON) :
    decodeRequestBody body = none ↔
      (body = none ∨ ∃ v, body = some v ∧
        (withinDepth maxNestingDepth v = false ∨ isObjectOrNull v = false ∨
          ∃ fields, v = JSON.obj fields ∧
            ∃ kv ∈ fields, keyIsSpot kv.1 = true ∧ isStringOrNull kv.2 = false)) := by
  cases body with
  | none => simp [decodeRequestBody]
  | some v =>
    simp only [decodeRequestBody, false_or, Option.some.injEq, exists_eq_left', reduceCtorEq]
    by_cases hd : withinDepth maxNestingDepth v = true
    · simp only [hd, if_true, Bool.true_eq_false, false_or]
      cases v with
      | obj fields =>
        simp only [storeRequestBody, isObjectOrNull, Bool.true_eq_false, false_or,
          JSON.obj.injEq, exists_eq_left']
        constructor
        · intro h
          by_contra hno
          have hclean := decodeFields_clean fields (by
            intro kv hkv hk
            by_contra hv
            exact hno ⟨kv, hkv, hk, by simpa using hv⟩) ""
          rcases hdf : decodeFields fields "" false with ⟨spot, bad⟩
          rw [hdf] at h hclean
          simp only at hclean
          subst hclean
          simp at h
        · intro h
          have h2 := decodeFields_mismatch fields h "" false
          rcases hdf : decodeFields fields "" false with ⟨spot, bad⟩
          rw [hdf] at h2
          simp only at h2
          subst h2
          rfl
      | null => simp [storeRequestBody, isObjectOrNull]
      | bool b => simp [storeRequestBody, isObjectOrNull]
      | num lit => simp [storeRequestBody, isObjectOrNull]
      | str t => simp [storeRequestBody, isObjectOrNull]
      | arr items => simp [storeRequestBody, isObjectOrNull]
    · simp [hd]

theorem reserve_valid_not_invalid (data : Data) (eventIDStr : String) (body : Option JSON)
    (eventID : Int) (name : String) (hid : strconvAtoi eventIDStr = some eventID)
    (hbody : decodeRequestBody body = some name) :
    (reserveSpotHandler data eventIDStr body).1 ≠ respInvalidBody := by
  rw [reserve_eq data eventIDStr body eventID name hid hbody]
  cases findSpot data.Spots eventID name with
  | none => exact fun h => respInvalidBody_ne_respSpotNotFound h.symm
  | some sp =>
    by_cases hst : sp.Status = "reserved"
    · simp only [if_pos hst]
      exact fun h => respInvalidBody_ne_respConflict h.symm
    · simp only [if_neg hst]
      exact fun h => respInvalidBody_ne_respReserved h.symm

/-- C7, as stated, fails: a JSON object without a `spot` member is not rejected.  For the
bodies `{}` and `{"seat": "A1"}` the lookup takes place with the empty name and the answer
is "Spot not found", not "Invalid request body"; on a dataset holding a spot with
the empty name, the body `{}` is even answered with Success and the dataset changes. -/
theorem reserve_missing_field_not_rejected :
    strconvAtoi "1" = some 1 ∧
    (reserveSpotHandler sampleData "1" bodyEmptyObject).1 = respSpotNotFound ∧
    (reserveSpotHandler sampleData "1" bodyEmptyObject).1 ≠ respInvalidBody ∧
    (reserveSpotHandler sampleData "1" bodySeatA1).1 = respSpotNotFound ∧
    (reserveSpotHandler sampleData "1" bodySeatA1).1 ≠ respInvalidBody ∧
    (reserveSpotHandler unnamedSpotData "1" bodyEmptyObject).1 = respReserved ∧
    (reserveSpotHandler unnamedSpotData "1" bodyEmptyObject).2 ≠ unnamedSpotData := by
  have h1 : (reserveSpotHandler sampleData "1" bodyEmptyObject).1 = respSpotNotFound := rfl
  have h2 : (reserveSpotHandler sampleData "1" bodySeatA1).1 = respSpotNotFound := rfl
  refine ⟨by decide, h1, ?_, h2, ?_, rfl, by decide⟩
  · rw [h1]; exact fun e => respInvalidBody_ne_respSpotNotFound e.symm
  · rw [h2]; exact fun e => respInvalidBody_ne_respSpotNotFound e.symm

/-- C7, amended. With a valid event id, the reservation is rejected with InvalidArgument
(400 "Invalid request body") exactly when the decoder returns an error: the body does
not begin with a well-formed JSON value, or its first JSON value is nested deeper than
10000, or is neither an object nor `null`, or is an object with a `spot` member that is
neither a string nor `null`.  The rejection comes before any lookup: the answer is the
same on every dataset, it is not "Spot not found", "Spot is already reserved" or
Success, and the dataset is unchanged.  An object without a `spot` member, nested at most
10000 deep, is not rejected: it is served as the request for the empty spot name. -/
theorem reserve_invalid_body (data : Data) (eventIDStr : String) (eventID : Int)
    (hid : strconvAtoi eventIDStr = some eventID) :
    (∀ body : Option JSON,
      ((reserveSpotHandler data eventIDStr body).1 = respInvalidBody ↔
        (body = none ∨ ∃ v, body = some v ∧
          (withinDepth maxNestingDepth v = false ∨ isObjectOrNull v = false ∨
            ∃ fields, v = JSON.obj fields ∧
              ∃ kv ∈ fields, keyIsSpot kv.1 = true ∧ isStringOrNull kv.2 = false))) ∧
      ((reserveSpotHandler data eventIDStr body).1 = respInvalidBody →
        (reserveSpotHandler data eventIDStr body).2 = data)) ∧
    (∀ fields : List (String × JSON), withinDepth maxNestingDepth (JSON.obj fields) = true →
      (∀ kv ∈ fields, keyIsSpot kv.1 = false) →
      reserveSpotHandler data eventIDStr (some (JSON.obj fields)) =
        reserveSpotHandler data eventIDStr (some (JSON.obj [("spot", JSON.str "")]))) ∧
    respInvalidBody = ⟨400, "text/plain; charset=utf-8", Body.text "Invalid request body\n"⟩ ∧
    respInvalidBody ≠ respSpotNotFound ∧ respInvalidBody ≠ respConflict ∧
    respInvalidBody ≠ respReserved := by
  refine ⟨?_, ?_, rfl, respInvalidBody_ne_respSpotNotFound, respInvalidBody_ne_respConflict,
    respInvalidBody_ne_respReserved⟩
  · intro body
    have hrej : decodeRequestBody body = none →
        reserveSpotHandler data eventIDStr body = (respInvalidBody, data) := by
      intro hdec
      simp only [reserveSpotHandler, hid, hdec]
      rfl
    have hiff : (reserveSpotHandler data eventIDStr body).1 = respInvalidBody ↔
        decodeRequestBody body = none := by
      constructor
      · intro h
        cases hdec : decodeRequestBody body with
        | none => rfl
        | some name =>
          exact absurd h (reserve_valid_not_invalid data eventIDStr body eventID name hid hdec)
      · intro hdec
        rw [hrej hdec]
    refine ⟨hiff.trans (decodeRequestBody_none_iff body), ?_⟩
    intro h
    rw [hrej (hiff.mp h)]
  · intro fields hdepth hf
    have h1 : decodeRequestBody (some (JSON.obj fields)) = some "" := by
      simp only [decodeRequestBody, hdepth, if_true, storeRequestBody,
        decodeFields_no_key fields hf]
    have h2 : decodeRequestBody (some (JSON.obj [("spot", JSON.str "")])) = some "" := by
      decide
    rw [reserve_eq data eventIDStr _ eventID "" hid h1,
      reserve_eq data eventIDStr _ eventID "" hid h2]

theorem reserve_invalid_body_witness :
    (reserveSpotHandler sampleData "1" none).1 = respInvalidBody ∧
    (reserveSpotHandler sampleData "1" none).2 = sampleData ∧
    (reserveSpotHandler sampleData "1" (some (JSON.obj [("spot", JSON.num "5")]))).1 =
      respInvalidBody ∧
    (reserveSpotHandler sampleData "1" (some (JSON.arr [JSON.str "A1"]))).1 =
      respInvalidBody ∧
    reserveSpotHandler sampleData "1" (some (JSON.obj [("seat", JSON.str "A1")])) =
      reserveSpotHandler sampleData "1" (some (JSON.obj [("spot", JSON.str "")])) :=
  ⟨((reserve_invalid_body sampleData "1" 1 (by decide)).1 none).1.mpr (Or.inl rfl),
   ((reserve_invalid_body sampleData "1" 1 (by decide)).1 none).2
     (((reserve_invalid_body sampleData "1" 1 (by decide)).1 none).1.mpr (Or.inl rfl)),
   ((reserve_invalid_body sampleData "1" 1 (by decide)).1 _).1.mpr
     (Or.inr ⟨_, rfl, Or.inr (Or.inr ⟨_, rfl, ("spot", JSON.num "5"), by simp, by decide,
       rfl⟩)⟩),
   ((reserve_invalid_body sampleData "1" 1 (by decide)).1 _).1.mpr
     (Or.inr ⟨_, rfl, Or.inr (Or.inl rfl)⟩),
   (reserve_invalid_body sampleData "1" 1 (by decide)).2.1 _ (by decide) (by decide)⟩

/-! ## The state machine of the status field -/

/-- Every request either leaves the dataset as it is, or rewrites one spot that was not
"reserved" into its reserved copy. -/
theorem handle_effect (data : Data) (req : Request) :
    (handle data req).2 = data ∨
    ∃ pre sp post, data.Spots = pre ++ sp :: post ∧ sp.Status ≠ "reserved" ∧
      (handle data req).2 = { data with Spots := pre ++ reservedCopy sp :: post } := by
  cases req with
  | getEvents => left; rfl
  | getEventDetails eventId =>
    left
    simp only [handle, getEventDetailsHandler]
    cases eventDetailsLoop data.Events eventId <;> rfl
  | getEventSpots eventId => left; rfl
  | reserveSpot eventId body =>
    simp only [handle]
    cases hid : strconvAtoi eventId with
    | none => left; simp only [reserveSpotHandler, hid]
    | some eventID =>
      cases hb : decodeRequestBody body with
      | none => left; simp only [reserveSpotHandler, hid, hb]
      | some name =>
        rw [reserve_eq data eventId body eventID name hid hb]
        cases hf : findSpot data.Spots eventID name with
        | none => left; rfl
        | some sp =>
          obtain ⟨pre, post, hsplit, hpre, hsp⟩ := findSpot_some_split _ _ _ _ hf
          by_cases hst : sp.Status = "reserved"
          · left; simp only [if_pos hst]
          · right
            refine ⟨pre, sp, post, hsplit, hst, ?_⟩
            simp only [if_neg hst]
            rw [hsplit, writeSpot_split pre sp post eventID name _ hpre hsp]

theorem getElem_rewrite (pre : List Spot) (sp new : Spot) (post : List Spot) (i : Nat)
    (hi : i ≠ pre.length) : (pre ++ new :: post)[i]? = (pre ++ sp :: post)[i]? := by
  rcases Nat.lt_or_gt_of_ne hi with h | h
  · rw [List.getElem?_append_left h, List.getElem?_append_left h]
  · rw [List.getElem?_append_right (by omega), List.getElem?_append_right (by omega)]
    obtain ⟨k, hk⟩ : ∃ k, i - pre.length = k + 1 := ⟨i - pre.length - 1, by omega⟩
    rw [hk]; rfl

/-- C8, as stated, fails: on `pendingData` the reservation of `A1` changes the status of
the spot at index 0 from "pending" - not "available" - to "reserved". -/
theorem reserve_from_other_status :
    pendingData.Spots[0]? = some ⟨10, "A1", "pending", 1⟩ ∧
    (handle pendingData (Request.reserveSpot "1" bodyA1)).2.Spots[0]? =
      some ⟨10, "A1", "reserved", 1⟩ ∧
    (⟨10, "A1", "pending", 1⟩ : Spot).Status ≠ (⟨10, "A1", "reserved", 1⟩ : Spot).Status ∧
    (⟨10, "A1", "pending", 1⟩ : Spot).Status ≠ "available" := by
  refine ⟨rfl, rfl, by decide, by decide⟩

/-- C8, amended. For every dataset and every request to one of the four handlers, a spot
whose Status differs between the dataset before and the dataset after had a Status other
than "reserved" before (hence "available" when the statuses are confined to
"available" and "reserved") and has Status "reserved" after, with ID, Name and EventID
unchanged; no status is ever changed away from "reserved" or to another value. -/
theorem status_transition (data : Data) (req : Request) (i : Nat) (s s' : Spot)
    (hs : data.Spots[i]? = some s) (hs' : (handle data req).2.Spots[i]? = some s')
    (hne : s.Status ≠ s'.Status) :
    s.Status ≠ "reserved" ∧ s'.Status = "reserved" ∧ s' = reservedCopy s ∧
    (s.Status = "available" ∨ s.Status = "reserved" → s.Status = "available") := by
  have core : s.Status ≠ "reserved" ∧ s'.Status = "reserved" ∧ s' = reservedCopy s := by
    rcases handle_effect data req with h | ⟨pre, sp, post, hsplit, hst, h⟩
    · rw [h, hs] at hs'
      exact absurd (congrArg Spot.Status (Option.some.inj hs')) hne
    · rw [h] at hs'
      simp only at hs'
      by_cases hi : i = pre.length
      · subst hi
        rw [hsplit, getElem_split] at hs
        rw [getElem_split] at hs'
        have e1 : sp = s := Option.some.inj hs
        have e2 : reservedCopy sp = s' := Option.some.inj hs'
        subst e1; subst e2
        exact ⟨hst, rfl, rfl⟩
      · rw [getElem_rewrite pre sp _ post i hi, ← hsplit, hs] at hs'
        exact absurd (congrArg Spot.Status (Option.some.inj hs')) hne
  refine ⟨core.1, core.2.1, core.2.2, ?_⟩
  rintro (h | h)
  · exact h
  · exact absurd h core.1

theorem status_transition_witness :
    (sampleSpot.Status ≠ "reserved" ∧ (reservedCopy sampleSpot).Status = "reserved" ∧
      reservedCopy sampleSpot = reservedCopy sampleSpot ∧
      (sampleSpot.Status = "available" ∨ sampleSpot.Status = "reserved" →
        sampleSpot.Status = "available")) :=
  status_transition sampleData (Request.reserveSpot "1" bodyA1) 0 sampleSpot
    (reservedCopy sampleSpot) rfl rfl (by decide)

/-! ## Runs -/

theorem handle_keeps (data : Data) (req : Request) :
    (handle data req).2.Events = data.Events ∧
    (handle data req).2.Spots.length = data.Spots.length ∧
    (∀ (i : Nat) (s : Spot), data.Spots[i]? = some s → s.Status = "reserved" →
      (handle data req).2.Spots[i]? = some s) := by
  rcases handle_effect data req with h | ⟨pre, sp, post, hsplit, hst, h⟩
  · rw [h]; exact ⟨rfl, rfl, fun _ _ hs _ => hs⟩
  · rw [h]
    refine ⟨rfl, by simp [hsplit], ?_⟩
    intro i s hs hres
    simp only
    by_cases hi : i = pre.length
    · subst hi
      rw [hsplit, getElem_split] at hs
      have e1 : sp = s := Option.some.inj hs
      subst e1
      exact absurd hres hst
    · rw [getElem_rewrite pre sp _ post i hi, ← hsplit, hs]

theorem run_keeps (reqs : List Request) : ∀ data : Data,
    (run data reqs).Events = data.Events ∧
    (run data reqs).Spots.length = data.Spots.length ∧
    (∀ (i : Nat) (s : Spot), data.Spots[i]? = some s → s.Status = "reserved" →
      (run data reqs).Spots[i]? = some s) := by
  induction reqs with
  | nil => intro data; exact ⟨rfl, rfl, fun _ _ hs _ => hs⟩
  | cons req rest ih =>
    intro data
    obtain ⟨h1, h2, h3⟩ := handle_keeps data req
    obtain ⟨k1, k2, k3⟩ := ih (handle data req).2
    refine ⟨?_, ?_, ?_⟩
    · show (run (handle data req).2 rest).Events = _
      rw [k1, h1]
    · show (run (handle data req).2 rest).Spots.length = _
      rw [k2, h2]
    · intro i s hs hres
      exact k3 i s (h3 i s hs hres) hres

theorem run_append (before : List Request) : ∀ (data : Data) (later : List Request),
    run data (before ++ later) = run (run data before) later := by
  induction before with
  | nil => intro data later; rfl
  | cons req rest ih => intro data later; exact ih (handle data req).2 later

/-- C9. `reserved` is terminal: along every finite sequence of requests to the four
handlers, a position of the spots list whose Status is "reserved" after the requests
served so far still holds the same record, with Status "reserved", after every later
request; the events and the number of spots never change. -/
theorem reserved_terminal (data : Data) (before later : List Request) (i : Nat) (s : Spot)
    (hs : (run data before).Spots[i]? = some s) (hres : s.Status = "reserved") :
    (run data (before ++ later)).Spots[i]? = some s ∧
    (∃ s', (run data (before ++ later)).Spots[i]? = some s' ∧ s'.Status = "reserved") ∧
    (run data (before ++ later)).Spots.length = data.Spots.length ∧
    (run data (before ++ later)).Events = data.Events ∧
    (run data (before ++ later)).Events.length = data.Events.length := by
  have h1 := (run_keeps later (run data before)).2.2 i s hs hres
  have h2 := run_keeps (before ++ later) data
  rw [← run_append] at h1
  exact ⟨h1, ⟨s, h1, hres⟩, h2.2.1, h2.1, by rw [h2.1]⟩

theorem reserved_terminal_witness :
    (run sampleData ([Request.reserveSpot "1" bodyA1] ++
        [Request.reserveSpot "1" bodyA1, Request.getEvents, Request.getEventSpots "1",
          Request.getEventDetails "1"])).Spots[0]? = some (reservedCopy sampleSpot) ∧
    (∃ s', (run sampleData ([Request.reserveSpot "1" bodyA1] ++
        [Request.reserveSpot "1" bodyA1, Request.getEvents, Request.getEventSpots "1",
          Request.getEventDetails "1"])).Spots[0]? = some s' ∧ s'.Status = "reserved") ∧
    (run sampleData ([Request.reserveSpot "1" bodyA1] ++
        [Request.reserveSpot "1" bodyA1, Request.getEvents, Request.getEventSpots "1",
          Request.getEventDetails "1"])).Spots.length = sampleData.Spots.length ∧
    (run sampleData ([Request.reserveSpot "1" bodyA1] ++
        [Request.reserveSpot "1" bodyA1, Request.getEvents, Request.getEventSpots "1",
          Request.getEventDetails "1"])).Events = sampleData.Events ∧
    (run sampleData ([Request.reserveSpot "1" bodyA1] ++
        [Request.reserveSpot "1" bodyA1, Request.getEvents, Request.getEventSpots "1",
          Request.getEventDetails "1"])).Events.length = sampleData.Events.length :=
  reserved_terminal sampleData [Request.reserveSpot "1" bodyA1]
    [Request.reserveSpot "1" bodyA1, Request.getEvents, Request.getEventSpots "1",
      Request.getEventDetails "1"] 0 (reservedCopy sampleSpot) rfl rfl

/-! ## Interleaved reservation calls -/

theorem phases_eq_handler (data : Data) (eventIDStr : String) (body : Option JSON) :
    interleave ⟨data, [Call.start eventIDStr body]⟩ [0, 0] =
      ⟨(reserveSpotHandler data eventIDStr body).2,
        [Call.done (reserveSpotHandler data eventIDStr body).1]⟩ := by
  show step (step ⟨data, [Call.start eventIDStr body]⟩ 0) 0 = _
  cases h1 : strconvAtoi eventIDStr with
  | none => simp [step, stepCall, readPhase, reserveSpotHandler, h1]
  | some eventID =>
    cases h2 : decodeRequestBody body with
    | none => simp [step, stepCall, readPhase, reserveSpotHandler, h1, h2]
    | some name =>
      cases h3 : findSpot data.Spots eventID name with
      | none => simp [step, stepCall, readPhase, reserveSpotHandler, h1, h2, h3]
      | some sp =>
        by_cases hst : sp.Status = "reserved"
        · simp [step, stepCall, readPhase, reserveSpotHandler, h1, h2, h3, hst]
        · simp [step, stepCall, readPhase, reserveSpotHandler, h1, h2, h3, hst, writePhase,
            jsonMarshal]

theorem interleave_append (a : List Nat) : ∀ (st : Server) (b : List Nat),
    interleave st (a ++ b) = interleave (interleave st a) b := by
  induction a with
  | nil => intro st b; rfl
  | cons i rest ih => intro st b; exact ih (step st i) b

/-- A call that runs both phases with no other call in between does what the handler
does on the current dataset. -/
theorem step_twice (data : Data) (calls : List Call) (i : Nat) (eventIDStr : String)
    (body : Option JSON) (hi : calls[i]? = some (Call.start eventIDStr body)) :
    step (step ⟨data, calls⟩ i) i =
      ⟨(reserveSpotHandler data eventIDStr body).2,
        calls.set i (Call.done (reserveSpotHandler data eventIDStr body).1)⟩ := by
  have hlt : i < calls.length := by
    by_contra h
    rw [List.getElem?_eq_none (by omega)] at hi
    cases hi
  have hget : ∀ c, (calls.set i c)[i]? = some c := by
    intro c
    rw [List.getElem?_set_self hlt]
  cases h1 : strconvAtoi eventIDStr with
  | none => simp [step, stepCall, readPhase, reserveSpotHandler, h1, hi, hget]
  | some eventID =>
    cases h2 : decodeRequestBody body with
    | none => simp [step, stepCall, readPhase, reserveSpotHandler, h1, h2, hi, hget]
    | some name =>
      cases h3 : findSpot data.Spots eventID name with
      | none => simp [step, stepCall, readPhase, reserveSpotHandler, h1, h2, h3, hi, hget]
      | some sp =>
        by_cases hst : sp.Status = "reserved"
        · simp [step, stepCall, readPhase, reserveSpotHandler, h1, h2, h3, hst, hi, hget]
        · simp [step, stepCall, readPhase, reserveSpotHandler, h1, h2, h3, hst, writePhase,
            jsonMarshal, hi, hget]

theorem set_middle (dones : List Call) (c c' : Call) (rest : List Call) :
    (dones ++ c :: rest).set dones.length c' = dones ++ c' :: rest := by
  induction dones with
  | nil => rfl
  | cons d ds ih =>
    show d :: (ds ++ c :: rest).set ds.length c' = d :: (ds ++ c' :: rest)
    rw [ih]

theorem getElem_middle (dones : List Call) (c : Call) (rest : List Call) :
    (dones ++ c :: rest)[dones.length]? = some c := by
  rw [List.getElem?_append_right (le_refl _)]
  simp

/-- Serving the remaining requests one after another once the spot is reserved: every
one of them is answered with Conflict and the dataset stays as it is. -/
theorem serial_conflicts (data : Data) (eventID : Int) (name : String) (pre : List Spot)
    (rc : Spot) (post : List Spot) (hsplit : data.Spots = pre ++ rc :: post)
    (hpre : ∀ x ∈ pre, ¬ spotMatches eventID name x) (hrc : spotMatches eventID name rc)
    (hres : rc.Status = "reserved") :
    ∀ (reqs : List (String × Option JSON)) (dones : List Call),
      (∀ r ∈ reqs, strconvAtoi r.1 = some eventID ∧ decodeRequestBody r.2 = some name) →
      interleave ⟨data, dones ++ startCalls reqs⟩ (serialSchedule dones.length reqs.length) =
        ⟨data, dones ++ List.replicate reqs.length (Call.done respConflict)⟩ := by
  intro reqs
  induction reqs with
  | nil => intro dones _; rfl
  | cons r rest ih =>
    intro dones hreqs
    obtain ⟨hid, hbody⟩ := hreqs r (List.mem_cons_self _ _)
    have hhandler : reserveSpotHandler data r.1 r.2 = (respConflict, data) := by
      rw [reserve_split data r.1 r.2 eventID name pre rc post hid hbody hsplit hpre hrc,
        if_pos hres]
    show interleave (step (step ⟨data, dones ++ Call.start r.1 r.2 :: startCalls rest⟩
      dones.length) dones.length) (serialSchedule (dones.length + 1) rest.length) = _
    rw [step_twice data _ dones.length r.1 r.2 (getElem_middle _ _ _), hhandler, set_middle]
    have ih2 := ih (dones ++ [Call.done respConflict])
      (fun x hx => hreqs x (List.mem_cons_of_mem _ hx))
    simp only [List.length_append, List.length_singleton, List.append_assoc,
      List.singleton_append] at ih2
    rw [ih2]
    simp [List.replicate_succ]

theorem callInv_mono (eventID : Int) (name : String) (sp : Spot) (p q : Prop) (hpq : p → q)
    (c : Call) (h : callInv eventID name sp p c) : callInv eventID name sp q c := by
  cases c with
  | start s b => exact h
  | found id n u => exact h
  | done r => exact ⟨h.1, hpq h.2⟩

theorem readPhase_valid (data : Data) (eventIDStr : String) (body : Option JSON)
    (eventID : Int) (name : String) (pre : List Spot) (sp : Spot) (post : List Spot)
    (hid : strconvAtoi eventIDStr = some eventID)
    (hbody : decodeRequestBody body = some name)
    (hsplit : data.Spots = pre ++ sp :: post)
    (hpre : ∀ x ∈ pre, ¬ spotMatches eventID name x)
    (hsp : spotMatches eventID name sp) :
    readPhase data eventIDStr body =
      if sp.Status = "reserved" then Call.done respConflict
      else Call.found eventID name (reservedCopy sp) := by
  simp only [readPhase, hid, hbody, hsplit, findSpot_split pre sp post eventID name hpre hsp]
  rfl

theorem writePhase_valid (data : Data) (eventID : Int) (name : String) (pre : List Spot)
    (sp new : Spot) (post : List Spot) (hsplit : data.Spots = pre ++ sp :: post)
    (hpre : ∀ x ∈ pre, ¬ spotMatches eventID name x)
    (hsp : spotMatches eventID name sp) :
    writePhase data eventID name new =
      (respReserved, { data with Spots := pre ++ new :: post }) := by
  simp only [writePhase, jsonMarshal, hsplit, writeSpot_split pre sp post eventID name new hpre hsp]
  rfl

theorem mem_set_cases (calls : List Call) (i : Nat) (c' a : Call) (ha : a ∈ calls) :
    a ∈ calls.set i c' ∨ calls[i]? = some a := by
  obtain ⟨j, hj⟩ := List.mem_iff_getElem?.mp ha
  by_cases hij : i = j
  · right; rw [hij]; exact hj
  · left
    apply List.mem_iff_getElem?.mpr
    exact ⟨j, by rw [List.getElem?_set_ne hij]; exact hj⟩

theorem step_raceInv (data : Data) (eventID : Int) (name : String) (pre : List Spot)
    (sp : Spot) (post : List Spot) (hsplit : data.Spots = pre ++ sp :: post)
    (hpre : ∀ x ∈ pre, ¬ spotMatches eventID name x) (hsp : spotMatches eventID name sp)
    (hav : sp.Status = "available") (st : Server) (i : Nat)
    (hinv : raceInv data eventID name pre sp post st) :
    raceInv data eventID name pre sp post (step st i) := by
  obtain ⟨hdata, hcalls, hdone⟩ := hinv
  have hne : ¬ sp.Status = "reserved" := by rw [hav]; decide
  cases hc : st.calls[i]? with
  | none => simp only [step, hc]; exact ⟨hdata, hcalls, hdone⟩
  | some c =>
    have hmem : c ∈ st.calls := List.mem_iff_getElem?.mpr ⟨i, hc⟩
    have hlt : i < st.calls.length := by
      by_contra h
      rw [List.getElem?_eq_none (by omega)] at hc
      cases hc
    have hself : ∀ c', c' ∈ st.calls.set i c' :=
      fun c' => List.mem_iff_getElem?.mpr ⟨i, List.getElem?_set_self hlt⟩
    have hci := hcalls c hmem
    simp only [step, hc]
    cases c with
    | start s b =>
      obtain ⟨hid, hbody⟩ := hci
      simp only [stepCall]
      refine ⟨hdata, ?_, ?_⟩
      · intro a ha
        rcases List.mem_or_eq_of_mem_set ha with ha | ha
        · exact hcalls a ha
        · rw [ha]
          rcases hdata with hd | hd
          · rw [readPhase_valid st.data s b eventID name pre sp post hid hbody
              (by rw [hd]; exact hsplit) hpre hsp, if_neg hne]
            exact ⟨rfl, rfl, rfl⟩
          · rw [readPhase_valid st.data s b eventID name pre (reservedCopy sp) post hid hbody
              (by rw [hd]) hpre (reservedCopy_matches hsp),
              if_pos (show (reservedCopy sp).Status = "reserved" from rfl)]
            exact ⟨Or.inr rfl, hd⟩
      · intro hw
        obtain ⟨a, ha, hra⟩ := hdone hw
        rcases mem_set_cases st.calls i (readPhase st.data s b) a ha with h | h
        · exact ⟨a, h, hra⟩
        · rw [hc] at h
          rw [hra] at h
          cases h
    | found id n u =>
      obtain ⟨e1, e2, e3⟩ := hci
      rw [e1, e2, e3] at hc ⊢
      have hwrite : writePhase st.data eventID name (reservedCopy sp) =
          (respReserved, { data with Spots := pre ++ reservedCopy sp :: post }) := by
        rcases hdata with hd | hd
        · rw [writePhase_valid st.data eventID name pre sp (reservedCopy sp) post
            (by rw [hd]; exact hsplit) hpre hsp, hd]
        · rw [writePhase_valid st.data eventID name pre (reservedCopy sp) (reservedCopy sp) post
            (by rw [hd]) hpre (reservedCopy_matches hsp), hd]
      simp only [stepCall, hwrite]
      refine ⟨Or.inr rfl, ?_, fun _ => ⟨_, hself _, rfl⟩⟩
      intro a ha
      rcases List.mem_or_eq_of_mem_set ha with ha | ha
      · exact callInv_mono eventID name sp _ _ (fun _ => rfl) a (hcalls a ha)
      · rw [ha]; exact ⟨Or.inl rfl, rfl⟩
    | done r =>
      simp only [stepCall]
      refine ⟨hdata, ?_, ?_⟩
      · intro a ha
        rcases List.mem_or_eq_of_mem_set ha with ha | ha
        · exact hcalls a ha
        · rw [ha]; exact hci
      · intro hw
        obtain ⟨a, ha, hra⟩ := hdone hw
        rcases mem_set_cases st.calls i (Call.done r) a ha with h | h
        · exact ⟨a, h, hra⟩
        · rw [hc] at h
          have e : Call.done r = a := Option.some.inj h
          exact ⟨Call.done r, hself _, e.trans hra⟩

theorem interleave_raceInv (data : Data) (eventID : Int) (name : String) (pre : List Spot)
    (sp : Spot) (post : List Spot) (hsplit : data.Spots = pre ++ sp :: post)
    (hpre : ∀ x ∈ pre, ¬ spotMatches eventID name x) (hsp : spotMatches eventID name sp)
    (hav : sp.Status = "available") (schedule : List Nat) : ∀ st : Server,
    raceInv data eventID name pre sp post st →
    raceInv data eventID name pre sp post (interleave st schedule) := by
  induction schedule with
  | nil => intro st h; exact h
  | cons i rest ih =>
    intro st h
    exact ih (step st i) (step_raceInv data eventID name pre sp post hsplit hpre hsp hav st i h)

theorem step_length (st : Server) (i : Nat) : (step st i).calls.length = st.calls.length := by
  simp only [step]
  cases st.calls[i]? with
  | none => rfl
  | some c => simp

theorem interleave_length (schedule : List Nat) : ∀ st : Server,
    (interleave st schedule).calls.length = st.calls.length := by
  induction schedule with
  | nil => intro st; rfl
  | cons i rest ih => intro st; exact (ih (step st i)).trans (step_length st i)

/-- C10, as stated, fails: the handler takes no lock between its scan and status check
and its write.  With two calls for the available spot `A1` of the sample dataset, the
interleaving in which both calls run their read phase before either runs its write phase
ends with two Success answers and no Conflict. -/
theorem reserve_race_two_successes :
    sampleSpot.Status = "available" ∧
    interleave ⟨sampleData, [Call.start "1" bodyA1, Call.start "1" bodyA1]⟩ [0, 1, 0, 1] =
      ⟨{ sampleData with Spots := [reservedCopy sampleSpot] },
        [Call.done respReserved, Call.done respReserved]⟩ ∧
    respReserved ≠ respConflict :=
  ⟨rfl, rfl, fun h => respConflict_ne_respReserved h.symm⟩

/-- C10, amended. For every N >= 1, N reserve calls for the same available spot that are
served one after another (each call runs its scan, status check and write before the
next call begins) yield exactly one Success, for the first call, and N-1 Conflict, and
the final status of the spot is "reserved".  The handler takes no lock: under an
arbitrary interleaving of the read phases (scan and status check) and write phases of the
calls, every call that has returned answered Success or Conflict and, once all calls have
returned, at least one answered Success and the final status of the spot is "reserved";
more than one call may answer Success. -/
theorem reserve_calls_interleaved (data : Data) (reqs : List (String × Option JSON))
    (eventID : Int) (name : String) (pre : List Spot) (sp : Spot) (post : List Spot)
    (hN : 1 ≤ reqs.length)
    (hreqs : ∀ r ∈ reqs, strconvAtoi r.1 = some eventID ∧ decodeRequestBody r.2 = some name)
    (hsplit : data.Spots = pre ++ sp :: post)
    (hpre : ∀ x ∈ pre, ¬ spotMatches eventID name x)
    (hsp : spotMatches eventID name sp)
    (hav : sp.Status = "available") :
    interleave ⟨data, startCalls reqs⟩ (serialSchedule 0 reqs.length) =
      ⟨{ data with Spots := pre ++ reservedCopy sp :: post },
        Call.done respReserved :: List.replicate (reqs.length - 1) (Call.done respConflict)⟩ ∧
    (∀ schedule : List Nat,
      (interleave ⟨data, startCalls reqs⟩ schedule).calls.length = reqs.length ∧
      (∀ resp, Call.done resp ∈ (interleave ⟨data, startCalls reqs⟩ schedule).calls →
        resp = respReserved ∨ resp = respConflict) ∧
      ((∀ c ∈ (interleave ⟨data, startCalls reqs⟩ schedule).calls, ∃ resp, c = Call.done resp) →
        Call.done respReserved ∈ (interleave ⟨data, startCalls reqs⟩ schedule).calls ∧
        (interleave ⟨data, startCalls reqs⟩ schedule).data =
          { data with Spots := pre ++ reservedCopy sp :: post })) := by
  have hne : ¬ sp.Status = "reserved" := by rw [hav]; decide
  constructor
  · cases reqs with
    | nil => simp at hN
    | cons r rest =>
      obtain ⟨hid, hbody⟩ := hreqs r (List.mem_cons_self _ _)
      have hhandler : reserveSpotHandler data r.1 r.2 =
          (respReserved, { data with Spots := pre ++ reservedCopy sp :: post }) := by
        rw [reserve_split data r.1 r.2 eventID name pre sp post hid hbody hsplit hpre hsp,
          if_neg hne]
      show interleave (step (step ⟨data, Call.start r.1 r.2 :: startCalls rest⟩ 0) 0)
        (serialSchedule 1 rest.length) = _
      rw [step_twice data _ 0 r.1 r.2 (by simp), hhandler]
      have h := serial_conflicts { data with Spots := pre ++ reservedCopy sp :: post } eventID
        name pre (reservedCopy sp) post rfl hpre (reservedCopy_matches hsp) rfl rest
        [Call.done respReserved] (fun x hx => hreqs x (List.mem_cons_of_mem _ hx))
      simpa using h
  · intro schedule
    have hinit : raceInv data eventID name pre sp post ⟨data, startCalls reqs⟩ := by
      refine ⟨Or.inl rfl, ?_, ?_⟩
      · intro c hc
        simp only [startCalls, List.mem_map] at hc
        obtain ⟨r, hr, rfl⟩ := hc
        exact hreqs r hr
      · intro hw
        have h2 : (pre ++ sp :: post) = pre ++ reservedCopy sp :: post := by
          have := congrArg Data.Spots hw
          simpa [hsplit] using this
        have h3 := congrArg (fun l => l[pre.length]?) h2
        simp only [getElem_split] at h3
        have h4 : sp.Status = (reservedCopy sp).Status :=
          congrArg Spot.Status (Option.some.inj h3)
        rw [hav] at h4
        exact absurd h4 (by simp [reservedCopy])
    obtain ⟨hdata, hcalls, hdone⟩ :=
      interleave_raceInv data eventID name pre sp post hsplit hpre hsp hav schedule _ hinit
    have hlen : (interleave ⟨data, startCalls reqs⟩ schedule).calls.length = reqs.length := by
      rw [interleave_length]; simp [startCalls]
    refine ⟨hlen, fun resp hmem => (hcalls _ hmem).1, ?_⟩
    intro hall
    obtain ⟨c, hc⟩ : ∃ c, c ∈ (interleave ⟨data, startCalls reqs⟩ schedule).calls := by
      apply List.exists_mem_of_length_pos
      omega
    obtain ⟨resp, hresp⟩ := hall c hc
    have hw := (hcalls c hc)
    rw [hresp] at hw
    obtain ⟨c2, hc2, e2⟩ := hdone hw.2
    exact ⟨e2 ▸ hc2, hw.2⟩

theorem reserve_calls_interleaved_witness :
    interleave ⟨sampleData, startCalls threeRequests⟩ [0, 0, 1, 1, 2, 2] =
      ⟨{ sampleData with Spots := [reservedCopy sampleSpot] },
        [Call.done respReserved, Call.done respConflict, Call.done respConflict]⟩ ∧
    (∀ schedule : List Nat,
      (interleave ⟨sampleData, startCalls threeRequests⟩ schedule).calls.length = 3 ∧
      (∀ resp, Call.done resp ∈ (interleave ⟨sampleData, startCalls threeRequests⟩ schedule).calls →
        resp = respReserved ∨ resp = respConflict) ∧
      ((∀ c ∈ (interleave ⟨sampleData, startCalls threeRequests⟩ schedule).calls,
          ∃ resp, c = Call.done resp) →
        Call.done respReserved ∈
          (interleave ⟨sampleData, startCalls threeRequests⟩ schedule).calls ∧
        (interleave ⟨sampleData, startCalls threeRequests⟩ schedule).data =
          { sampleData with Spots := [reservedCopy sampleSpot] })) :=
  reserve_calls_interleaved sampleData threeRequests 1 "A1" [] sampleSpot [] (by decide)
    (by decide) rfl (by simp) (by decide) rfl

end FcChallenge
